import Mathlib

/-!
Verification of the concurrency-and-memory core of the `osdev_rust` kernel:
a first-fit linked-list heap allocator (`src/kernel/src/allocator/linked_list.rs`),
the scancode event queue with its wake-registration cell
(`src/kernel/src/task/keyboard.rs`), and the cooperative task executor
(`src/kernel/src/task/executor.rs`).

The embedding is shallow: machine addresses and sizes are natural numbers
(the single `checked_add` of the source is modelled with an explicit bound
`USIZE_MAX`); the allocator's intrusive free list is the list of the
`(address, size)` regions its nodes describe, in link order starting from the
sentinel head; fallible operations return `Option`, where `none` models a
panic / fatal abort (a failed `assert!` or `.expect`).  The external crates
(`crossbeam_queue::ArrayQueue`, `futures_util::task::AtomicWaker`,
`conquer_once::spin::OnceCell`, `alloc::collections::BTreeMap`) are embedded
by their documented sequential semantics.
-/

/-- `mem::size_of::<ListNode>()` on the x86_64 target:
`ListNode { size: usize, next: Option<&'static mut ListNode> }` is two
8-byte words. -/
def nodeSize : Nat := 16

/-- `mem::align_of::<ListNode>()` on the x86_64 target. -/
def nodeAlign : Nat := 8

/-- Largest value of `usize` on the x86_64 target; `checked_add` fails when a
sum exceeds it. -/
def USIZE_MAX : Nat := 2 ^ 64 - 1

/-- Largest value of `isize` on the x86_64 target; `Layout::from_size_align`
rejects a layout whose size, rounded up to its alignment, would exceed it. -/
def ISIZE_MAX : Nat := 2 ^ 63 - 1

/-- Modelled from the spec: the `align_up` helper of the allocator module
(whose file is not under `src/`; `linked_list.rs` imports it from `super`).
The spec's §4.1 carving step takes "an aligned sub-range ... starting at or
after the node's aligned start": `align_up addr align` is the smallest
multiple of `align` that is `≥ addr` (for the power-of-two alignments a Rust
`Layout` ever supplies). -/
def align_up (addr align : Nat) : Nat :=
  ((addr + align - 1) / align) * align

/-- A Rust `core::alloc::Layout`: a size and a (power-of-two) alignment. -/
structure Layout where
  size : Nat
  align : Nat
  deriving Repr, DecidableEq

/-- `align` is a power of two — the invariant every Rust `Layout` carries. -/
def IsPow2 (n : Nat) : Prop := ∃ k, n = 2 ^ k

/-- A free region described by one free-list node: its start address and its
size in bytes (`ListNode.start_addr` / `ListNode.size`; `end_addr` is their
sum). -/
structure Region where
  addr : Nat
  size : Nat
  deriving Repr, DecidableEq

/-- `ListNode::end_addr`. -/
def Region.endAddr (r : Region) : Nat := r.addr + r.size

/-- The allocator's free list: the regions of its nodes in link order
(`head.next` first).  `LinkedListAllocator::new` starts with the empty
list. -/
abbrev FreeList := List Region

namespace LinkedListAllocator

/-- `LinkedListAllocator::size_align`: raises the layout's alignment to at
least `ListNode`'s (`Layout::align_to`), rounds the size up to a multiple of
that alignment (`Layout::pad_to_align`), and finally clamps the size to at
least one `ListNode` footprint.

`align_to(8)` re-runs `Layout::from_size_align` with the raised alignment and
returns `Err` — so the source's `.expect("adjusting alignment failed")`
panics, modelled by `none` — when the size, rounded up to the raised
alignment, would exceed `isize::MAX`, i.e. when
`size > ISIZE_MAX - (align - 1)`.  Its other error condition (alignment not a
power of two) cannot fire here: the raised alignment is the `max` of the
layout's power-of-two alignment and 8.  After a successful `align_to`,
`pad_to_align` cannot overflow (the `Layout` invariant guarantees the rounded
size fits), hence no further error path. -/
def size_align (layout : Layout) : Option (Nat × Nat) :=
  let a := max layout.align nodeAlign
  if layout.size > ISIZE_MAX - (a - 1) then none
  else
    let padded := align_up layout.size a
    some (max padded nodeSize, a)

/-- `LinkedListAllocator::alloc_from_region`: try to carve an `align`-aligned
sub-range of `size` bytes out of `region`.  Fails (`none`, the source's
`Err(())`) when the range would overrun the region's end, when the
`checked_add` overflows, or when the leftover tail would be too small to hold
a `ListNode` yet non-empty. -/
def alloc_from_region (region : Region) (size align : Nat) : Option Nat :=
  let allocStart := align_up region.addr align
  if allocStart + size > USIZE_MAX then none
  else
    let allocEnd := allocStart + size
    if allocEnd > region.endAddr then none
    else
      let excessSize := region.endAddr - allocEnd
      if excessSize > 0 ∧ excessSize < nodeSize then none
      else some allocStart

/-- `LinkedListAllocator::find_region`: first-fit scan of the free list.  On
the first node from which `alloc_from_region` succeeds, unlink that node and
return it together with the carved start address and the remaining list;
`none` when no node fits. -/
def find_region (size align : Nat) : FreeList → Option (Region × Nat × FreeList)
  | [] => none
  | r :: rest =>
    match alloc_from_region r size align with
    | some allocStart => some (r, allocStart, rest)
    | none =>
      match find_region size align rest with
      | some (reg, s, rest') => some (reg, s, r :: rest')
      | none => none

/-- `LinkedListAllocator::add_free_region`: asserts that `addr` is
`ListNode`-aligned and that `size` can hold a `ListNode`, then writes a node
at `addr` and links it as the new first element.  `none` models a failed
assertion (panic). -/
def add_free_region (addr size : Nat) (l : FreeList) : Option FreeList :=
  if align_up addr nodeAlign = addr ∧ size ≥ nodeSize then
    some (⟨addr, size⟩ :: l)
  else none

/-- `GlobalAlloc::alloc` for `Locked<LinkedListAllocator>`: adjust the layout
with `size_align` (whose `expect` panic propagates as `none`), run
`find_region`, and on success re-insert any excess tail as a new free region.
Returns the allocated address (`0` models the null pointer returned on
exhaustion) with the new free list; `none` models a panic (the `size_align`
`expect`, the `expect("overflow")`, or an `add_free_region` assertion). -/
def alloc (layout : Layout) (l : FreeList) : Option (Nat × FreeList) :=
  match size_align layout with
  | none => none
  | some sa =>
    let size := sa.1
    let align := sa.2
    match find_region size align l with
    | some (region, allocStart, rest) =>
      if allocStart + size > USIZE_MAX then none
      else
        let allocEnd := allocStart + size
        let excessSize := region.endAddr - allocEnd
        if excessSize > 0 then
          (add_free_region allocEnd excessSize rest).map fun l' => (allocStart, l')
        else
          some (allocStart, rest)
    | none => some (0, l)

/-- `GlobalAlloc::dealloc` for `Locked<LinkedListAllocator>`: recompute the
adjusted size with `size_align` and push a node for the freed block onto the
front of the free list.  `none` models a panic (the `size_align` `expect` or
a failed `add_free_region` assertion). -/
def dealloc (ptr : Nat) (layout : Layout) (l : FreeList) : Option FreeList :=
  match size_align layout with
  | none => none
  | some sa => add_free_region ptr sa.1 l

end LinkedListAllocator

/-!
Event queue and wake registration (`src/kernel/src/task/keyboard.rs`).

`SCANCODE_QUEUE` is a `OnceCell<ArrayQueue<u8>>`: uninitialized, or a bounded
FIFO of scancodes with a fixed capacity.  `WAKER` is an `AtomicWaker`: an
empty or full single-slot cell.  We model a waker by a natural-number tag;
the model records as effects how many diagnostic lines were printed and
whether a registered waker was invoked (`AtomicWaker::wake` consumes the
registered waker before calling it; `AtomicWaker::register` overwrites the
slot; `AtomicWaker::take` empties it).
-/

/-- The `crossbeam_queue::ArrayQueue<u8>` backing `SCANCODE_QUEUE`: a fixed
capacity and the queued items, oldest first.  `push` appends at the back and
fails when `items.length = cap`; `pop` takes from the front. -/
structure SQueue where
  cap : Nat
  items : List Nat
  deriving Repr, DecidableEq

/-- The module-level state of `keyboard.rs`: the `SCANCODE_QUEUE` cell
(`none` before `ScancodeStream::new` initializes it) and the `WAKER` slot. -/
structure KbState where
  queue : Option SQueue
  waker : Option Nat
  deriving Repr, DecidableEq

/-- Observable outcome of a producer call: the new state, the number of
`WARNING` diagnostic lines printed, and whether a registered waker was
invoked. -/
structure KbEffect where
  state : KbState
  diags : Nat
  woken : Bool
  deriving Repr, DecidableEq

/-- `keyboard::add_scancode`: if the queue cell is uninitialized, print a
diagnostic and return; otherwise push the scancode — on a full queue print a
diagnostic and drop the scancode, on success invoke (and thereby consume) the
registered waker, if any. -/
def add_scancode (sc : Nat) (s : KbState) : KbEffect :=
  match s.queue with
  | none => ⟨s, 1, false⟩
  | some q =>
    if q.items.length < q.cap then
      ⟨⟨some ⟨q.cap, q.items ++ [sc]⟩, none⟩, 0, s.waker.isSome⟩
    else
      ⟨s, 1, false⟩

/-- A sequence of `add_scancode` calls (successive keyboard interrupts),
accumulating the printed diagnostics and whether any call woke the
consumer. -/
def addMany (evs : List Nat) (s : KbState) : KbEffect :=
  match evs with
  | [] => ⟨s, 0, false⟩
  | e :: rest =>
    let r := add_scancode e s
    let r' := addMany rest r.state
    ⟨r'.state, r.diags + r'.diags, r.woken || r'.woken⟩

/-- Result of `ScancodeStream::poll_next`: `Poll::Ready(Some(scancode))` or
`Poll::Pending` (the stream never yields `Ready(None)`). -/
inductive PollNextRes where
  | ready (sc : Nat)
  | pending
  deriving Repr, DecidableEq

/-- `ScancodeStream::poll_next` for a consumer whose waker is `w`.  `none`
models the fatal `expect("scancode queue not initialized")`.  Fast path: a
non-empty first pop returns `ready` without touching the `WAKER` slot.  Slow
path: register `w`, then re-check the queue; `mid` is the interference — the
scancodes pushed by `add_scancode` calls from interrupt context in the window
between the failed first pop and the re-check (`[]` when no interrupt
races).  A successful re-check clears the slot (`WAKER.take()`) and returns
`ready`; an empty re-check returns `pending`. -/
def poll_next (w : Nat) (mid : List Nat) (s : KbState) :
    Option (PollNextRes × KbState) :=
  match s.queue with
  | none => none
  | some q =>
    match q.items with
    | sc :: rest => some (.ready sc, ⟨some ⟨q.cap, rest⟩, s.waker⟩)
    | [] =>
      let s' := (addMany mid ⟨s.queue, some w⟩).state
      match s'.queue with
      | none => none
      | some q' =>
        match q'.items with
        | sc :: rest => some (.ready sc, ⟨some ⟨q'.cap, rest⟩, none⟩)
        | [] => some (.pending, s')

/-!
Executor (`src/kernel/src/task/executor.rs`).

A `Task` wraps a resumable computation; we embed its behaviour as the list of
results its successive polls produce (`true` = `Poll::Ready(())`, i.e.
completed; `false` = `Poll::Pending`), consumed one per poll; an exhausted
list keeps reporting completed.  The `BTreeMap` task table is an association
list with unique keys, the `ArrayQueue<TaskId>` ready queue a FIFO list with
capacity 100, and the waker cache the set (as a list) of task ids that have a
cached `TaskWaker` — a `TaskWaker` is determined by its task id and the
shared queue reference, so the id suffices.
-/

/-- Outcome of one poll of a task. -/
inductive TPoll where
  | completed
  | pending
  deriving Repr, DecidableEq

/-- A task (`Task` in the source; that name is taken by Lean's core
library): its id and the outcomes of its future polls, next first. -/
structure KTask where
  id : Nat
  steps : List TPoll
  deriving Repr, DecidableEq

/-- `Task::poll`: produce the next outcome and the advanced task. -/
def KTask.poll (t : KTask) : TPoll × KTask :=
  match t.steps with
  | [] => (.completed, t)
  | p :: rest => (p, { t with steps := rest })

/-- `ArrayQueue::new(100)` in `Executor::new`. -/
def taskQueueCap : Nat := 100

/-- The executor's state: task table, ready queue (front = next pop), and
waker cache. -/
structure Executor where
  tasks : List (Nat × KTask)
  task_queue : List Nat
  waker_cache : List Nat
  deriving Repr, DecidableEq

/-- `BTreeMap::get` on the task table. -/
def lookupTask (id : Nat) : List (Nat × KTask) → Option KTask
  | [] => none
  | (k, t) :: rest => if k = id then some t else lookupTask id rest

/-- `BTreeMap::remove` on the task table. -/
def removeTask (id : Nat) : List (Nat × KTask) → List (Nat × KTask)
  | [] => []
  | (k, t) :: rest =>
    if k = id then removeTask id rest else (k, t) :: removeTask id rest

/-- In-place update of a task after a poll advanced it (`get_mut`). -/
def updateTask (id : Nat) (t : KTask) : List (Nat × KTask) → List (Nat × KTask)
  | [] => []
  | (k, t') :: rest =>
    if k = id then (k, t) :: rest else (k, t') :: updateTask id t rest

/-- `waker_cache.entry(id).or_insert_with(...)`: ensure a cached waker for
`id` exists. -/
def cacheInsert (id : Nat) (c : List Nat) : List Nat :=
  if id ∈ c then c else c ++ [id]

/-- `BTreeMap::remove` on the waker cache. -/
def cacheRemove (id : Nat) : List Nat → List Nat
  | [] => []
  | k :: rest => if k = id then cacheRemove id rest else k :: cacheRemove id rest

/-- The loop body of `Executor::run_ready_tasks`, structurally recursing on
the drained ready queue: pop an id; skip it silently when it is no longer in
the task table; otherwise ensure a cached waker, poll the task, and on
`Completed` remove the task and its cache entry while on `Pending` keep the
advanced task.  Returns the final task table and waker cache (the ready
queue is empty when the sweep ends). -/
def sweep : List Nat → List (Nat × KTask) → List Nat → List (Nat × KTask) × List Nat
  | [], tasks, cache => (tasks, cache)
  | id :: rest, tasks, cache =>
    match lookupTask id tasks with
    | none => sweep rest tasks cache
    | some t =>
      let cache' := cacheInsert id cache
      match t.poll with
      | (.completed, _) => sweep rest (removeTask id tasks) (cacheRemove id cache')
      | (.pending, t') => sweep rest (updateTask id t' tasks) cache'

/-- `Executor::run_ready_tasks`: drain the ready queue with `sweep`. -/
def run_ready_tasks (e : Executor) : Executor :=
  let (tasks, cache) := sweep e.task_queue e.tasks e.waker_cache
  ⟨tasks, [], cache⟩

/-- `TaskWaker::wake_task`: push the waker's task id onto the shared ready
queue; `none` models the fatal `expect("task_queue full")`. -/
def wake_task (id : Nat) (e : Executor) : Option Executor :=
  if e.task_queue.length < taskQueueCap then
    some { e with task_queue := e.task_queue ++ [id] }
  else none

/-! ### Helper lemmas about `align_up` and `size_align` -/

theorem USIZE_MAX_eq : USIZE_MAX = 18446744073709551615 := by
  norm_num [USIZE_MAX]

theorem align_up_dvd (x a : Nat) : a ∣ align_up x a :=
  dvd_mul_left a ((x + a - 1) / a)

theorem align_up_of_dvd {x a : Nat} (ha : 0 < a) (h : a ∣ x) :
    align_up x a = x := by
  obtain ⟨m, rfl⟩ := h
  unfold align_up
  have h1 : a * m + a - 1 = (a - 1) + a * m := by omega
  rw [h1, Nat.add_mul_div_left _ _ ha, Nat.div_eq_of_lt (by omega)]
  ring

theorem align_up_eq_self_iff {x a : Nat} (ha : 0 < a) :
    align_up x a = x ↔ a ∣ x := by
  constructor
  · intro h
    rw [← h]
    exact align_up_dvd x a
  · exact align_up_of_dvd ha

theorem le_align_up_of_pos {x a : Nat} (hx : 0 < x) (ha : 0 < a) :
    a ≤ align_up x a := by
  unfold align_up
  have h1 : 1 ≤ (x + a - 1) / a := by
    rw [Nat.le_div_iff_mul_le ha]
    omega
  calc a = 1 * a := (one_mul a).symm
    _ ≤ ((x + a - 1) / a) * a := Nat.mul_le_mul_right a h1

theorem pow2_dvd_max_eight {n : Nat} (h : IsPow2 n) :
    n ∣ max n 8 ∧ 8 ∣ max n 8 := by
  obtain ⟨k, rfl⟩ := h
  rcases Nat.le_total k 3 with hk | hk
  · have hle : 2 ^ k ≤ 8 := by
      calc 2 ^ k ≤ 2 ^ 3 := Nat.pow_le_pow_right (by norm_num) hk
        _ = 8 := by norm_num
    rw [Nat.max_eq_right hle]
    exact ⟨(pow_dvd_pow 2 hk).trans (by norm_num), dvd_refl 8⟩
  · have hge : 8 ≤ 2 ^ k := by
      calc (8 : Nat) = 2 ^ 3 := by norm_num
        _ ≤ 2 ^ k := Nat.pow_le_pow_right (by norm_num) hk
    rw [Nat.max_eq_left hge]
    refine ⟨dvd_refl _, ?_⟩
    calc (8 : Nat) = 2 ^ 3 := by norm_num
      _ ∣ 2 ^ k := pow_dvd_pow 2 hk

theorem dvd_max_of_dvd {d x y : Nat} (hx : d ∣ x) (hy : d ∣ y) :
    d ∣ max x y := by
  rcases Nat.le_total x y with h | h
  · rw [Nat.max_eq_right h]; exact hy
  · rw [Nat.max_eq_left h]; exact hx

namespace LinkedListAllocator

/-- Unpacks a successful `size_align`: the alignment is the layout's raised
to at least `nodeAlign`, the size is the padded size clamped to at least
`nodeSize`. -/
theorem size_align_eq {layout : Layout} {sz al : Nat}
    (h : size_align layout = some (sz, al)) :
    al = max layout.align nodeAlign
    ∧ sz = max (align_up layout.size (max layout.align nodeAlign)) nodeSize := by
  simp only [size_align] at h
  split_ifs at h with hc
  simp only [Option.some.injEq, Prod.mk.injEq] at h
  exact ⟨h.2.symm, h.1.symm⟩

theorem size_align_size_ge {layout : Layout} {sz al : Nat}
    (h : size_align layout = some (sz, al)) : nodeSize ≤ sz := by
  rw [(size_align_eq h).2]
  exact Nat.le_max_right _ _

theorem size_align_align_ge {layout : Layout} {sz al : Nat}
    (h : size_align layout = some (sz, al)) : nodeAlign ≤ al := by
  rw [(size_align_eq h).1]
  exact Nat.le_max_right _ _

theorem size_align_requested_dvd {layout : Layout} {sz al : Nat}
    (hpow : IsPow2 layout.align) (h : size_align layout = some (sz, al)) :
    layout.align ∣ al := by
  rw [(size_align_eq h).1]
  exact (pow2_dvd_max_eight hpow).1

theorem size_align_eight_dvd_align {layout : Layout} {sz al : Nat}
    (hpow : IsPow2 layout.align) (h : size_align layout = some (sz, al)) :
    nodeAlign ∣ al := by
  rw [(size_align_eq h).1]
  exact (pow2_dvd_max_eight hpow).2

theorem size_align_eight_dvd_size {layout : Layout} {sz al : Nat}
    (hpow : IsPow2 layout.align) (h : size_align layout = some (sz, al)) :
    nodeAlign ∣ sz := by
  rw [(size_align_eq h).2]
  have h8 : nodeAlign ∣ max layout.align nodeAlign := (pow2_dvd_max_eight hpow).2
  have hup : max layout.align nodeAlign ∣
      align_up layout.size (max layout.align nodeAlign) := align_up_dvd _ _
  exact dvd_max_of_dvd (h8.trans hup) (by norm_num [nodeAlign, nodeSize])

theorem size_align_align_dvd_size {layout : Layout} {sz al : Nat}
    (hpow : IsPow2 layout.align) (h : size_align layout = some (sz, al))
    (hs : 0 < layout.size) : al ∣ sz := by
  obtain ⟨hal, hsz⟩ := size_align_eq h
  subst hal
  subst hsz
  have ha : 0 < max layout.align nodeAlign :=
    Nat.lt_of_lt_of_le (by norm_num [nodeAlign]) (Nat.le_max_right _ _)
  have hup : max layout.align nodeAlign ∣
      align_up layout.size (max layout.align nodeAlign) := align_up_dvd _ _
  have hge : max layout.align nodeAlign ≤
      align_up layout.size (max layout.align nodeAlign) :=
    le_align_up_of_pos hs ha
  rcases Nat.le_total nodeSize
      (align_up layout.size (max layout.align nodeAlign)) with hc | hc
  · rw [Nat.max_eq_left hc]
    exact hup
  · -- the padded size is below one node footprint, so the alignment is 8 or
    -- 16 and the clamped size 16 is still a multiple of it
    rw [Nat.max_eq_right hc]
    have h8 : nodeAlign ∣ max layout.align nodeAlign := (pow2_dvd_max_eight hpow).2
    simp only [nodeAlign] at h8 ha hge hc ⊢
    simp only [nodeSize] at hc ⊢
    have hcases : max layout.align 8 = 8 ∨ max layout.align 8 = 16 := by
      omega
    rcases hcases with he | he
    · rw [he]; norm_num
    · rw [he]

/-! ### Helper lemmas about `alloc_from_region` and `find_region` -/

theorem alloc_from_region_eq_some {r : Region} {size align st : Nat} :
    alloc_from_region r size align = some st ↔
      st = align_up r.addr align ∧ st + size ≤ USIZE_MAX ∧
      st + size ≤ r.endAddr ∧
      (r.endAddr - (st + size) = 0 ∨ nodeSize ≤ r.endAddr - (st + size)) := by
  simp only [alloc_from_region]
  split_ifs with h1 h2 h3
  · simp only [reduceCtorEq, false_iff]
    omega
  · simp only [reduceCtorEq, false_iff]
    omega
  · simp only [reduceCtorEq, false_iff]
    omega
  · simp only [Option.some.injEq]
    constructor
    · rintro rfl
      omega
    · rintro ⟨rfl, _⟩
      rfl

theorem find_region_eq_some {size align : Nat} {l : FreeList}
    {reg : Region} {st : Nat} {rest : FreeList}
    (h : find_region size align l = some (reg, st, rest)) :
    alloc_from_region reg size align = some st := by
  induction l generalizing rest with
  | nil => simp [find_region] at h
  | cons r l' ih =>
    unfold find_region at h
    rcases ha : alloc_from_region r size align with _ | s
    · rw [ha] at h
      rcases hf : find_region size align l' with _ | x
      · rw [hf] at h; simp at h
      · obtain ⟨a, b, c⟩ := x
        rw [hf] at h
        simp only [Option.some.injEq, Prod.mk.injEq] at h
        obtain ⟨rfl, rfl, rfl⟩ := h
        exact ih hf
    · rw [ha] at h
      simp only [Option.some.injEq, Prod.mk.injEq] at h
      obtain ⟨rfl, rfl, rfl⟩ := h
      exact ha

theorem find_region_eq_none_iff {size align : Nat} {l : FreeList} :
    find_region size align l = none ↔
      ∀ r ∈ l, alloc_from_region r size align = none := by
  induction l with
  | nil => simp [find_region]
  | cons r l' ih =>
    simp only [find_region]
    rcases ha : alloc_from_region r size align with _ | s
    · rcases hf : find_region size align l' with _ | x
      · rw [hf] at ih
        simp only [List.mem_cons]
        constructor
        · rintro _ rr (rfl | hmem)
          · exact ha
          · exact (ih.mp rfl) rr hmem
        · intro _
          trivial
      · obtain ⟨a, b, c⟩ := x
        rw [hf] at ih
        simp only [List.mem_cons, reduceCtorEq, false_iff, not_forall] at ih ⊢
        obtain ⟨rr, hmem, hne⟩ := ih
        exact ⟨rr, ⟨Or.inr hmem, hne⟩⟩
    · simp only [List.mem_cons, reduceCtorEq, false_iff, not_forall]
      exact ⟨r, ⟨Or.inl rfl, by simp [ha]⟩⟩

theorem find_region_cons_of_reject {size align : Nat} {r : Region}
    (rest : FreeList) (h : alloc_from_region r size align = none) :
    find_region size align (r :: rest) =
      (find_region size align rest).map fun x => (x.1, x.2.1, r :: x.2.2) := by
  simp only [find_region]
  rw [h]
  rcases hf : find_region size align rest with _ | x
  · rfl
  · obtain ⟨a, b, c⟩ := x
    rfl

/-! ### Claim theorems for the allocator -/

/-- C5: if no free-list node can satisfy the adjusted `(size, align)` request,
`alloc` reports failure by returning the null pointer (`0`), does not panic
(`some`), and leaves the free list exactly as it was. -/
theorem C5_alloc_exhaustion (layout : Layout) (l : FreeList) (sz al : Nat)
    (hsa : size_align layout = some (sz, al))
    (h : ∀ r ∈ l, alloc_from_region r sz al = none) :
    alloc layout l = some (0, l) := by
  have hf : find_region sz al l = none := find_region_eq_none_iff.mpr h
  simp only [alloc, hsa]
  rw [hf]

/-- Witness for C5: a heap whose single 110-byte region cannot host the
adjusted 104-byte request (the 6-byte tail is below one node footprint), so
the allocation returns null with the list untouched. -/
theorem C5_witness :
    alloc ⟨100, 8⟩ [⟨4096, 110⟩] = some (0, [⟨4096, 110⟩]) :=
  C5_alloc_exhaustion ⟨100, 8⟩ [⟨4096, 110⟩] 104 8 (by decide) (by decide)

/-- C6: `dealloc` recomputes the adjusted size via `size_align` exactly as at
allocation time, writes a node of that size at the freed address, and links
it as the new first node, leaving every existing node unchanged (no
coalescing). -/
theorem C6_dealloc_pushes_front (ptr : Nat) (layout : Layout) (l : FreeList)
    (sz al : Nat) (hsa : size_align layout = some (sz, al))
    (h : nodeAlign ∣ ptr) :
    dealloc ptr layout l = some (⟨ptr, sz⟩ :: l) := by
  unfold dealloc
  rw [hsa]
  show add_free_region ptr sz l = some (⟨ptr, sz⟩ :: l)
  unfold add_free_region
  rw [if_pos]
  exact ⟨align_up_of_dvd (by norm_num [nodeAlign]) h, size_align_size_ge hsa⟩

/-- Witness for C6 at a concrete free: layout `(100, 8)` adjusts to size 104,
and the freed block becomes the new head of a non-empty free list. -/
theorem C6_witness :
    dealloc 4096 ⟨100, 8⟩ [⟨8192, 64⟩] =
      some [⟨4096, 104⟩, ⟨8192, 64⟩] := by
  rw [C6_dealloc_pushes_front 4096 ⟨100, 8⟩ [⟨8192, 64⟩] 104 8 (by decide)
    (by norm_num [nodeAlign])]

/-- How `alloc` behaves once `find_region` has chosen a node: the node is
unlinked (`rest`), and any positive excess is handed to `add_free_region`. -/
theorem alloc_eq_of_find {layout : Layout} {sz al : Nat} {l : FreeList}
    {region : Region} {st : Nat} {rest : FreeList}
    (hsa : size_align layout = some (sz, al))
    (hf : find_region sz al l = some (region, st, rest)) :
    alloc layout l =
      if 0 < region.endAddr - (st + sz) then
        (add_free_region (st + sz) (region.endAddr - (st + sz)) rest).map
          fun l' => (st, l')
      else some (st, rest) := by
  have hs := find_region_eq_some hf
  rw [alloc_from_region_eq_some] at hs
  simp only [alloc, hsa]
  rw [hf]
  have hnof : ¬ st + sz > USIZE_MAX := by omega
  simp only [hnof, if_false, gt_iff_lt]

/-- The carved start and the excess handed back by `alloc` are node-aligned,
so `add_free_region` accepts the excess. -/
theorem add_free_region_of_find {layout : Layout} {sz al : Nat}
    {l : FreeList} {region : Region} {st : Nat} {rest : FreeList}
    (hpow : IsPow2 layout.align)
    (hsa : size_align layout = some (sz, al))
    (hf : find_region sz al l = some (region, st, rest))
    (hx : nodeSize ≤ region.endAddr - (st + sz)) :
    add_free_region (st + sz) (region.endAddr - (st + sz)) rest =
      some (⟨st + sz, region.endAddr - (st + sz)⟩ :: rest) := by
  have hs := find_region_eq_some hf
  rw [alloc_from_region_eq_some] at hs
  have hdvd : nodeAlign ∣ st + sz := by
    refine Nat.dvd_add ?_ (size_align_eight_dvd_size hpow hsa)
    rw [hs.1]
    exact (size_align_eight_dvd_align hpow hsa).trans (align_up_dvd _ _)
  unfold add_free_region
  rw [if_pos]
  exact ⟨align_up_of_dvd (by norm_num [nodeAlign]) hdvd, hx⟩

/-- C7: every non-null address returned by `alloc` is a multiple of the
requested alignment, for every size and every power-of-two requested
alignment. -/
theorem C7_alloc_respects_alignment (layout : Layout) (l : FreeList)
    (p : Nat) (l' : FreeList) (hpow : IsPow2 layout.align)
    (h : alloc layout l = some (p, l')) (hp : p ≠ 0) :
    p % layout.align = 0 := by
  rcases hsa : size_align layout with _ | ⟨sz, al⟩
  · have h0 : alloc layout l = none := by
      simp only [alloc, hsa]
    rw [h0] at h
    exact absurd h (by simp)
  · rcases hf : find_region sz al l with _ | ⟨region, st, rest⟩
    · have h0 : alloc layout l = some (0, l) := by
        simp only [alloc, hsa]
        rw [hf]
      rw [h0] at h
      simp only [Option.some.injEq, Prod.mk.injEq] at h
      exact absurd h.1.symm hp
    · have hs := find_region_eq_some hf
      rw [alloc_from_region_eq_some] at hs
      have halloc := alloc_eq_of_find hsa hf
      rw [halloc] at h
      have hpst : p = st := by
        split_ifs at h with hexc
        · rcases hadd : add_free_region (st + sz)
              (region.endAddr - (st + sz)) rest with _ | l2
          · rw [hadd] at h
            simp at h
          · rw [hadd] at h
            simp only [Option.map, Option.bind, Option.some.injEq,
              Prod.mk.injEq] at h
            exact h.1.symm
        · simp only [Option.some.injEq, Prod.mk.injEq] at h
          exact h.1.symm
      have hdvd : layout.align ∣ p := by
        rw [hpst, hs.1]
        exact (size_align_requested_dvd hpow hsa).trans (align_up_dvd _ _)
      exact Nat.mod_eq_zero_of_dvd hdvd

/-- Witness for C7: allocating `(100, 8)` from a 1024-byte region at 4096
returns the 8-aligned address 4096. -/
theorem C7_witness :
    alloc ⟨100, 8⟩ [⟨4096, 1024⟩] = some (4096, [⟨4200, 920⟩]) ∧
    4096 % 8 = 0 :=
  ⟨by decide,
   C7_alloc_respects_alignment ⟨100, 8⟩ [⟨4096, 1024⟩] 4096 [⟨4200, 920⟩]
     ⟨3, rfl⟩ (by decide) (by decide)⟩

/-- C2: the first-fit scan's edge-case policy and success behaviour.  A node
whose carving would leave a leftover strictly between zero and one node
footprint is rejected by `alloc_from_region` and the scan continues past it
unchanged; on success the chosen node is unlinked, a leftover of at least one
node footprint is re-inserted as a new free region, and a zero leftover
inserts nothing (a leftover strictly in between never reaches this point). -/
theorem C2_first_fit_policy :
    (∀ (size align : Nat) (r : Region) (rest : FreeList),
        align_up r.addr align + size ≤ r.endAddr →
        0 < r.endAddr - (align_up r.addr align + size) →
        r.endAddr - (align_up r.addr align + size) < nodeSize →
        alloc_from_region r size align = none ∧
        find_region size align (r :: rest) =
          (find_region size align rest).map fun x => (x.1, x.2.1, r :: x.2.2))
    ∧ (∀ (layout : Layout) (sz al : Nat) (l : FreeList) (region : Region)
        (st : Nat) (rest : FreeList), IsPow2 layout.align →
        size_align layout = some (sz, al) →
        find_region sz al l = some (region, st, rest) →
        (region.endAddr - (st + sz) = 0 ∨
          nodeSize ≤ region.endAddr - (st + sz))
        ∧ (region.endAddr - (st + sz) = 0 →
            alloc layout l = some (st, rest))
        ∧ (nodeSize ≤ region.endAddr - (st + sz) →
            alloc layout l =
              some (st, ⟨st + sz,
                region.endAddr - (st + sz)⟩ :: rest))) := by
  constructor
  · intro size align r rest hfit hpos hsmall
    have hrej : alloc_from_region r size align = none := by
      simp only [alloc_from_region]
      split_ifs with h1 h2 h3
      · rfl
      · rfl
      · rfl
      · exfalso
        simp only [not_and, not_lt] at h3
        omega
    exact ⟨hrej, find_region_cons_of_reject rest hrej⟩
  · intro layout sz al l region st rest hpow hsa hf
    have hs := find_region_eq_some hf
    rw [alloc_from_region_eq_some] at hs
    refine ⟨hs.2.2.2, ?_, ?_⟩
    · intro hzero
      rw [alloc_eq_of_find hsa hf, if_neg (by omega)]
    · intro hbig
      have hpos : 0 < region.endAddr - (st + sz) := by
        have : 0 < nodeSize := by norm_num [nodeSize]
        omega
      rw [alloc_eq_of_find hsa hf, if_pos hpos,
        add_free_region_of_find hpow hsa hf hbig]
      rfl

/-- Witness for C2, exercising both conjuncts: the 110-byte region leaves a
6-byte leftover for the adjusted 104-byte request and is rejected, and a
1024-byte region serves the adjusted 1000-byte request with the 24-byte
leftover re-inserted. -/
theorem C2_witness :
    alloc_from_region ⟨4096, 110⟩ 104 8 = none ∧
    alloc ⟨1000, 8⟩ [⟨4096, 1024⟩] = some (4096, [⟨5096, 24⟩]) :=
  ⟨(C2_first_fit_policy.1 104 8 ⟨4096, 110⟩ [] (by decide) (by decide)
      (by decide)).1,
   (C2_first_fit_policy.2 ⟨1000, 8⟩ 1000 8 [⟨4096, 1024⟩] ⟨4096, 1024⟩ 4096 []
      ⟨3, rfl⟩ (by decide) (by decide)).2.2 (by decide)⟩

/-- C10 (amended): for every layout with power-of-two alignment on which the
`size_align` adjustment succeeds (its `align_to(8).expect` panics on valid
layouts whose size exceeds `isize::MAX - (raised align - 1)`), the returned
alignment is at least `ListNode`'s, and the returned size is at least one
`ListNode` footprint, a multiple of `ListNode`'s alignment, and — whenever
the layout's size is nonzero — a multiple of the returned alignment (a
zero-size layout with alignment 32 adjusts to `(16, 32)`, and 16 is not a
multiple of 32); consequently the carved allocation's start and end are
`ListNode`-aligned for any free region, so any leftover handed to
`add_free_region` inside `alloc` satisfies both of its assertions and those
assertions cannot fire on that path: once `size_align` has succeeded, `alloc`
returns a value, never the panic marker. -/
theorem C10_size_align_safety (layout : Layout) (sz al : Nat)
    (hpow : IsPow2 layout.align) (hsa : size_align layout = some (sz, al)) :
    (nodeAlign ≤ al ∧ nodeSize ≤ sz ∧ nodeAlign ∣ sz
     ∧ (0 < layout.size → al ∣ sz))
    ∧ (∀ (r : Region) (st : Nat), r.addr % nodeAlign = 0 →
        alloc_from_region r sz al = some st →
        st % nodeAlign = 0 ∧ (st + sz) % nodeAlign = 0)
    ∧ (∀ l : FreeList, (alloc layout l).isSome) := by
  refine ⟨⟨size_align_align_ge hsa, size_align_size_ge hsa,
      size_align_eight_dvd_size hpow hsa, size_align_align_dvd_size hpow hsa⟩,
      ?_, ?_⟩
  · intro r st _ hsome
    rw [alloc_from_region_eq_some] at hsome
    have hst : nodeAlign ∣ st := by
      rw [hsome.1]
      exact (size_align_eight_dvd_align hpow hsa).trans (align_up_dvd _ _)
    refine ⟨Nat.mod_eq_zero_of_dvd hst, ?_⟩
    exact Nat.mod_eq_zero_of_dvd
      (Nat.dvd_add hst (size_align_eight_dvd_size hpow hsa))
  · intro l
    rcases hf : find_region sz al l with _ | ⟨region, st, rest⟩
    · have h0 : alloc layout l = some (0, l) := by
        simp only [alloc, hsa]
        rw [hf]
      rw [h0]
      rfl
    · have hs := find_region_eq_some hf
      rw [alloc_from_region_eq_some] at hs
      rw [alloc_eq_of_find hsa hf]
      split_ifs with hexc
      · have hbig : nodeSize ≤ region.endAddr - (st + sz) := by
          rcases hs.2.2.2 with hz | hb
          · omega
          · exact hb
        rw [add_free_region_of_find hpow hsa hf hbig]
        rfl
      · rfl

/-- Counterexample for C10 as stated: for the (legal) zero-size layout with
alignment 32, `size_align` returns the pair `(16, 32)` and 16 is not a
multiple of 32; and for the legal layout of size `2^63 - 1` with alignment 1,
`size_align` does not return a pair at all — its `align_to(8).expect`
panics. -/
theorem C10_counterexample :
    (size_align ⟨0, 32⟩ = some (16, 32) ∧ ¬ (32 ∣ 16))
    ∧ size_align ⟨2 ^ 63 - 1, 1⟩ = none := by
  refine ⟨⟨?_, ?_⟩, ?_⟩
  · decide
  · decide
  · decide

/-- Witness for C10 at the layout `(100, 8)`, which adjusts to `(104, 8)`,
and a concrete heap. -/
theorem C10_witness :
    (nodeAlign ≤ 8 ∧ nodeSize ≤ 104 ∧ nodeAlign ∣ 104
     ∧ (0 < (100 : Nat) → 8 ∣ 104))
    ∧ (alloc ⟨100, 8⟩ [⟨4096, 1024⟩]).isSome :=
  ⟨(C10_size_align_safety ⟨100, 8⟩ 104 8 ⟨3, rfl⟩ (by decide)).1,
   (C10_size_align_safety ⟨100, 8⟩ 104 8 ⟨3, rfl⟩ (by decide)).2.2
     [⟨4096, 1024⟩]⟩

end LinkedListAllocator

/-! ### Helper lemmas about `add_scancode` and `addMany` -/

theorem add_scancode_success {sc cap : Nat} {xs : List Nat} {wk : Option Nat}
    (h : xs.length < cap) :
    add_scancode sc ⟨some ⟨cap, xs⟩, wk⟩ =
      ⟨⟨some ⟨cap, xs ++ [sc]⟩, none⟩, 0, wk.isSome⟩ := by
  simp only [add_scancode]
  rw [if_pos h]

theorem add_scancode_full {sc cap : Nat} {xs : List Nat} {wk : Option Nat}
    (h : ¬ xs.length < cap) :
    add_scancode sc ⟨some ⟨cap, xs⟩, wk⟩ = ⟨⟨some ⟨cap, xs⟩, wk⟩, 1, false⟩ := by
  simp only [add_scancode]
  rw [if_neg h]

/-- The contents and the diagnostic count after a burst of producer calls on
a queue holding `xs`: the queue ends up with the first `cap` of `xs ++ evs`
and one diagnostic per event that did not fit. -/
theorem addMany_spec (evs : List Nat) (cap : Nat) (xs : List Nat)
    (wk : Option Nat) (h : xs.length ≤ cap) :
    (addMany evs ⟨some ⟨cap, xs⟩, wk⟩).state.queue =
      some ⟨cap, (xs ++ evs).take cap⟩
    ∧ (addMany evs ⟨some ⟨cap, xs⟩, wk⟩).diags =
      xs.length + evs.length - min (xs.length + evs.length) cap := by
  induction evs generalizing xs wk with
  | nil =>
    simp only [addMany, List.append_nil, List.length_nil]
    constructor
    · rw [List.take_of_length_le h]
    · omega
  | cons e rest ih =>
    by_cases hlt : xs.length < cap
    · have step := @add_scancode_success e cap xs wk hlt
      have hlen : (xs ++ [e]).length ≤ cap := by
        simp only [List.length_append, List.length_cons, List.length_nil]
        omega
      have ihr := ih (xs ++ [e]) none hlen
      simp only [addMany, step]
      constructor
      · rw [ihr.1, List.append_assoc, List.singleton_append]
      · rw [ihr.2]
        simp only [List.length_append, List.length_cons, List.length_nil]
        omega
    · have step := @add_scancode_full e cap xs wk hlt
      have ihr := ih xs wk h
      have hxcap : xs.length = cap := by omega
      simp only [addMany, step]
      constructor
      · rw [ihr.1]
        have h1 : (xs ++ rest).take cap = xs := by
          rw [← hxcap]
          exact List.take_left xs rest
        have h2 : (xs ++ e :: rest).take cap = xs := by
          rw [← hxcap]
          exact List.take_left xs (e :: rest)
        rw [h1, h2]
      · rw [ihr.2]
        simp only [List.length_cons]
        omega

/-- A burst of producer calls only appends to the queue, and when nothing was
appended the `WAKER` slot is untouched. -/
theorem addMany_extends (evs : List Nat) (cap : Nat) (xs : List Nat)
    (wk : Option Nat) :
    ∃ ys wk', (addMany evs ⟨some ⟨cap, xs⟩, wk⟩).state =
        ⟨some ⟨cap, xs ++ ys⟩, wk'⟩
      ∧ (ys = [] → wk' = wk) := by
  induction evs generalizing xs wk with
  | nil =>
    refine ⟨[], wk, ?_, fun _ => rfl⟩
    simp [addMany]
  | cons e rest ih =>
    by_cases hlt : xs.length < cap
    · obtain ⟨ys, wk', hstate, _⟩ := ih (xs ++ [e]) none
      refine ⟨e :: ys, wk', ?_, fun hcon => absurd hcon (by simp)⟩
      simp only [addMany, add_scancode_success hlt]
      rw [hstate, List.append_assoc, List.singleton_append]
    · obtain ⟨ys, wk', hstate, hnil⟩ := ih xs wk
      refine ⟨ys, wk', ?_, hnil⟩
      simp only [addMany, add_scancode_full hlt]
      exact hstate

/-! ### Claim theorems for the event queue and wake registration -/

/-- C4: with the queue initialized and full, `add_scancode` drops the new
(newest) scancode, leaves the queue contents and the registered waker
unchanged, emits one diagnostic, does not panic (the model is a total
function: the source catches the push error), and invokes no waker; when the
push succeeds, the registered waker — if any — is invoked (and thereby
consumed). -/
theorem C4_add_scancode_full_drops (sc cap : Nat) (xs : List Nat)
    (wk : Option Nat) :
    (xs.length = cap →
      add_scancode sc ⟨some ⟨cap, xs⟩, wk⟩ = ⟨⟨some ⟨cap, xs⟩, wk⟩, 1, false⟩)
    ∧ (xs.length < cap →
      add_scancode sc ⟨some ⟨cap, xs⟩, wk⟩ =
        ⟨⟨some ⟨cap, xs ++ [sc]⟩, none⟩, 0, wk.isSome⟩) :=
  ⟨fun h => add_scancode_full (by omega), fun h => add_scancode_success h⟩

/-- Witness for C4: a full one-slot queue with a registered waker drops the
pushed scancode, leaves everything unchanged, and wakes nobody. -/
theorem C4_witness :
    add_scancode 42 ⟨some ⟨1, [7]⟩, some 3⟩ =
      ⟨⟨some ⟨1, [7]⟩, some 3⟩, 1, false⟩ :=
  (C4_add_scancode_full_drops 42 1 [7] (some 3)).1 rfl

/-- C8 (amended): pushing `cap + k` events into an initialized empty queue of
capacity `cap` with no intervening pops retains exactly the first `cap`
events in arrival order, drops the newest `k` (not the oldest-pending)
events, emits one diagnostic per dropped event, and at no prefix of the burst
does the queue hold more than `cap` events. -/
theorem C8_overload_drops_newest (cap k : Nat) (evs : List Nat)
    (wk : Option Nat) (hlen : evs.length = cap + k) :
    (addMany evs ⟨some ⟨cap, []⟩, wk⟩).state.queue = some ⟨cap, evs.take cap⟩
    ∧ (addMany evs ⟨some ⟨cap, []⟩, wk⟩).diags = k
    ∧ ∀ i, ∃ q, (addMany (evs.take i) ⟨some ⟨cap, []⟩, wk⟩).state.queue = some q
          ∧ q.items.length ≤ cap ∧ q.cap = cap := by
  have h0 : ([] : List Nat).length ≤ cap := by simp
  have hmain := addMany_spec evs cap [] wk h0
  refine ⟨?_, ?_, ?_⟩
  · rw [hmain.1]
    simp
  · rw [hmain.2]
    simp only [List.length_nil, Nat.zero_add, hlen]
    omega
  · intro i
    have hi := addMany_spec (evs.take i) cap [] wk h0
    refine ⟨⟨cap, (([] : List Nat) ++ evs.take i).take cap⟩, hi.1, ?_, rfl⟩
    simp [List.length_take]

/-- Counterexample for C8 as stated: pushing `[10, 20]` into an empty queue
of capacity 1 retains the oldest event 10 and drops the newest event 20 —
not the oldest-pending excess, which would have left `[20]` retrievable. -/
theorem C8_counterexample :
    (addMany [10, 20] ⟨some ⟨1, []⟩, none⟩).state = ⟨some ⟨1, [10]⟩, none⟩
    ∧ (addMany [10, 20] ⟨some ⟨1, []⟩, none⟩).state ≠ ⟨some ⟨1, [20]⟩, none⟩ := by
  constructor
  · decide
  · decide

/-- Witness for C8: capacity 4, five pushes, no drain — exactly the first
four events remain in arrival order and one diagnostic was emitted. -/
theorem C8_witness :
    (addMany [1, 2, 3, 4, 5] ⟨some ⟨4, []⟩, none⟩).state.queue =
      some ⟨4, [1, 2, 3, 4]⟩
    ∧ (addMany [1, 2, 3, 4, 5] ⟨some ⟨4, []⟩, none⟩).diags = 1 :=
  ⟨(C8_overload_drops_newest 4 1 [1, 2, 3, 4, 5] none rfl).1,
   (C8_overload_drops_newest 4 1 [1, 2, 3, 4, 5] none rfl).2.1⟩

/-- C9 (amended): before the one-time initialization of the event queue, the
consumer entry point `poll_next` aborts fatally (the modelled panic of its
`expect`), but the producer entry point `add_scancode` does not: it emits
one diagnostic, discards the scancode, leaves all state unchanged, wakes
nobody, and returns normally. -/
theorem C9_uninitialized_access (w sc : Nat) (mid : List Nat)
    (wk : Option Nat) :
    poll_next w mid ⟨none, wk⟩ = none
    ∧ add_scancode sc ⟨none, wk⟩ = ⟨⟨none, wk⟩, 1, false⟩ :=
  ⟨rfl, rfl⟩

/-- Counterexample for C9 as stated: calling the producer before
initialization returns normally (the model is a total function — the source
catches the `Err` of `try_get` and merely prints a warning), with the state
unchanged, rather than aborting fatally. -/
theorem C9_counterexample :
    add_scancode 42 ⟨none, none⟩ = ⟨⟨none, none⟩, 1, false⟩ := by
  decide

/-- C1: the `poll_next` protocol.  Fast path: a non-empty first check pops
and returns `ready` without modifying the wake-registration cell.  Slow path:
the caller's waker is registered before the re-check; if the re-check (after
any interference `mid` from the producer) finds an event, the registration
cell is left cleared and `ready` is returned with that event; if the re-check
finds the queue still empty, `pending` is returned with the registration left
in place. -/
theorem C1_poll_next_protocol (w : Nat) (mid : List Nat) (q : SQueue)
    (wk : Option Nat) :
    (∀ sc rest, q.items = sc :: rest →
      poll_next w mid ⟨some q, wk⟩ =
        some (.ready sc, ⟨some ⟨q.cap, rest⟩, wk⟩))
    ∧ (q.items = [] →
      (∀ q' sc rest,
        (addMany mid ⟨some q, some w⟩).state.queue = some q' →
        q'.items = sc :: rest →
        poll_next w mid ⟨some q, wk⟩ =
          some (.ready sc, ⟨some ⟨q'.cap, rest⟩, none⟩))
      ∧ (∀ q',
        (addMany mid ⟨some q, some w⟩).state.queue = some q' →
        q'.items = [] →
        poll_next w mid ⟨some q, wk⟩ =
          some (.pending, (addMany mid ⟨some q, some w⟩).state)
        ∧ (addMany mid ⟨some q, some w⟩).state.waker = some w)) := by
  obtain ⟨cap, items⟩ := q
  refine ⟨?_, ?_⟩
  · intro sc rest h
    simp only at h
    subst h
    rfl
  · intro h
    simp only at h
    subst h
    constructor
    · intro q' sc rest hq' hitems
      simp only [poll_next]
      rw [hq']
      obtain ⟨cap', items'⟩ := q'
      simp only at hitems
      subst hitems
      rfl
    · intro q' hq' hitems
      have hwaker : (addMany mid ⟨some ⟨cap, []⟩, some w⟩).state.waker =
          some w := by
        obtain ⟨ys, wk', hstate, hnil⟩ := addMany_extends mid cap [] (some w)
        rw [hstate] at hq' ⊢
        simp only [Option.some.injEq] at hq'
        rw [← hq'] at hitems
        simp only at hitems
        exact hnil hitems
      refine ⟨?_, hwaker⟩
      simp only [poll_next]
      rw [hq']
      obtain ⟨cap', items'⟩ := q'
      simp only at hitems
      subst hitems
      rfl

/-- Witness for C1, fast path at a concrete state: a queued scancode is
returned `ready` and the registered waker 9 is left untouched. -/
theorem C1_witness :
    poll_next 5 [] ⟨some ⟨100, [7]⟩, some 9⟩ =
      some (.ready 7, ⟨some ⟨100, []⟩, some 9⟩) :=
  (C1_poll_next_protocol 5 [] ⟨100, [7]⟩ (some 9)).1 7 [] rfl

/-! ### Helper lemmas about the executor's task table, cache and sweep -/

theorem lookupTask_removeTask_self (id : Nat) (tasks : List (Nat × KTask)) :
    lookupTask id (removeTask id tasks) = none := by
  induction tasks with
  | nil => rfl
  | cons kt rest ih =>
    obtain ⟨k, t⟩ := kt
    simp only [removeTask]
    by_cases hk : k = id
    · rw [if_pos hk]
      exact ih
    · rw [if_neg hk]
      simp only [lookupTask, if_neg hk]
      exact ih

theorem lookupTask_removeTask_none {id x : Nat} {tasks : List (Nat × KTask)}
    (h : lookupTask id tasks = none) :
    lookupTask id (removeTask x tasks) = none := by
  induction tasks with
  | nil => rfl
  | cons kt rest ih =>
    obtain ⟨k, t⟩ := kt
    simp only [lookupTask] at h
    by_cases hk : k = id
    · rw [if_pos hk] at h
      exact absurd h (by simp)
    · rw [if_neg hk] at h
      simp only [removeTask]
      by_cases hx : k = x
      · rw [if_pos hx]
        exact ih h
      · rw [if_neg hx]
        simp only [lookupTask, if_neg hk]
        exact ih h

theorem lookupTask_updateTask_none {id x : Nat} {t : KTask}
    {tasks : List (Nat × KTask)} (h : lookupTask id tasks = none) :
    lookupTask id (updateTask x t tasks) = none := by
  induction tasks with
  | nil => rfl
  | cons kt rest ih =>
    obtain ⟨k, t0⟩ := kt
    simp only [lookupTask] at h
    by_cases hk : k = id
    · rw [if_pos hk] at h
      exact absurd h (by simp)
    · rw [if_neg hk] at h
      simp only [updateTask]
      by_cases hx : k = x
      · rw [if_pos hx]
        simp only [lookupTask, if_neg hk]
        exact h
      · rw [if_neg hx]
        simp only [lookupTask, if_neg hk]
        exact ih h

theorem lookupTask_updateTask_self {id : Nat} {t t' : KTask}
    {tasks : List (Nat × KTask)} (h : lookupTask id tasks = some t) :
    lookupTask id (updateTask id t' tasks) = some t' := by
  induction tasks with
  | nil => simp [lookupTask] at h
  | cons kt rest ih =>
    obtain ⟨k, t0⟩ := kt
    simp only [lookupTask] at h
    by_cases hk : k = id
    · simp only [updateTask, if_pos hk, lookupTask]
    · rw [if_neg hk] at h
      simp only [updateTask, if_neg hk, lookupTask]
      exact ih h

theorem not_mem_cacheRemove_self (id : Nat) (c : List Nat) :
    id ∉ cacheRemove id c := by
  induction c with
  | nil => simp [cacheRemove]
  | cons k rest ih =>
    simp only [cacheRemove]
    by_cases hk : k = id
    · rw [if_pos hk]
      exact ih
    · rw [if_neg hk]
      simp only [List.mem_cons]
      rintro (rfl | hmem)
      · exact hk rfl
      · exact ih hmem

theorem mem_cacheInsert_self (id : Nat) (c : List Nat) :
    id ∈ cacheInsert id c := by
  unfold cacheInsert
  by_cases h : id ∈ c
  · rw [if_pos h]
    exact h
  · rw [if_neg h]
    simp

/-- A swept id that is absent from the task table stays absent: the sweep
never (re-)inserts tasks. -/
theorem sweep_append_absent {id : Nat} (q : List Nat)
    (tasks : List (Nat × KTask)) (cache : List Nat)
    (h : lookupTask id tasks = none) :
    sweep (q ++ [id]) tasks cache = sweep q tasks cache := by
  induction q generalizing tasks cache with
  | nil =>
    simp only [List.nil_append, sweep]
    rw [h]
  | cons x q' ih =>
    rcases hx : lookupTask x tasks with _ | t
    · simp only [List.cons_append, sweep, hx]
      exact ih tasks cache h
    · rcases hpoll : t.poll with ⟨res, t1⟩
      rcases res with _ | _
      · simp only [List.cons_append, sweep, hx, hpoll]
        exact ih _ _ (lookupTask_removeTask_none h)
      · simp only [List.cons_append, sweep, hx, hpoll]
        exact ih _ _ (lookupTask_updateTask_none h)

/-! ### Claim theorem for the executor -/

/-- C3: during a sweep, an id popped from the ready queue that is absent from
the task table is skipped silently with no change; a present task polled to
`Completed` is removed together with its cached waker; a task polled to
`Pending` stays in the table (with its advanced state) and its waker stays
cached; and waking an already-completed, removed task only appends its id to
the ready queue, which the next sweep discards without re-inserting the
task. -/
theorem C3_run_ready_tasks_sweep :
    (∀ (id : Nat) (rest : List Nat) (tasks : List (Nat × KTask))
        (cache : List Nat),
      lookupTask id tasks = none →
      sweep (id :: rest) tasks cache = sweep rest tasks cache)
    ∧ (∀ (id : Nat) (rest : List Nat) (tasks : List (Nat × KTask))
        (cache : List Nat) (t t' : KTask),
      lookupTask id tasks = some t → t.poll = (.completed, t') →
      sweep (id :: rest) tasks cache =
        sweep rest (removeTask id tasks) (cacheRemove id (cacheInsert id cache))
      ∧ lookupTask id (removeTask id tasks) = none
      ∧ id ∉ cacheRemove id (cacheInsert id cache))
    ∧ (∀ (id : Nat) (rest : List Nat) (tasks : List (Nat × KTask))
        (cache : List Nat) (t t' : KTask),
      lookupTask id tasks = some t → t.poll = (.pending, t') →
      sweep (id :: rest) tasks cache =
        sweep rest (updateTask id t' tasks) (cacheInsert id cache)
      ∧ lookupTask id (updateTask id t' tasks) = some t'
      ∧ id ∈ cacheInsert id cache)
    ∧ (∀ (id : Nat) (e e' : Executor),
      lookupTask id e.tasks = none → wake_task id e = some e' →
      e'.tasks = e.tasks ∧ e'.task_queue = e.task_queue ++ [id]
      ∧ run_ready_tasks e' = run_ready_tasks e) := by
  refine ⟨?_, ?_, ?_, ?_⟩
  · intro id rest tasks cache h
    simp only [sweep]
    rw [h]
  · intro id rest tasks cache t t' h hpoll
    refine ⟨?_, lookupTask_removeTask_self id tasks,
      not_mem_cacheRemove_self id (cacheInsert id cache)⟩
    simp only [sweep, h, hpoll]
  · intro id rest tasks cache t t' h hpoll
    refine ⟨?_, lookupTask_updateTask_self h,
      mem_cacheInsert_self id cache⟩
    simp only [sweep, h, hpoll]
  · intro id e e' h hw
    unfold wake_task at hw
    split_ifs at hw with hcap
    · simp only [Option.some.injEq] at hw
      subst hw
      refine ⟨rfl, rfl, ?_⟩
      simp only [run_ready_tasks]
      rw [sweep_append_absent e.task_queue e.tasks e.waker_cache h]

/-- Witness for C3, skip branch at a concrete state: id 5 is not in the empty
task table, so the sweep discards it and changes nothing. -/
theorem C3_witness : sweep [5] [] [] = ([], []) :=
  C3_run_ready_tasks_sweep.1 5 [] [] [] rfl
